import Mathlib

/-!
# Bingo simulation engine (Go `main.go`) — shallow embedding

We embed the simulation core of the bingo solver:

* `Board` — the Go type `[boardSize][boardSize]int` with `boardSize = 5`,
  modelled as a function `Fin 5 → Fin 5 → Int`.
* `markDrawnNumber` — sets every cell equal to the drawn number to `-1`.
* `findWinningBoards` / `findNonWinningBoards` — keep the boards with some
  row sum or column sum equal to `-boardSize`.
* `calcBoardScore` — sums the strictly positive cells.
* `findHighestScoringBoard` — best score starting from the zero board,
  overwriting on strict improvement.
* `playBingoBestChoice` — "first winner" strategy.  Because Go slices alias
  the caller's backing array, the in-place marking done by the strategy is
  visible in `main` afterwards; we render that mutation with explicit state
  passing: `playBingoBestChoiceS` returns the score together with the board
  states at the moment the loop stops.
* `playBingoWorstChoice` — "last winner" strategy.  The unguarded indexing
  `boards[0]` (a runtime panic when the winning list is empty) is rendered by
  an `Option Int` result, `none` standing for the out-of-range abort.
* `mainResults` — the flow of `main`: part 2 receives the board states left
  behind by part 1 (the same slice, mutated in place; the `fd.Seek` in the
  source is not followed by any re-parse).
-/

abbrev boardSize : Nat := 5

/-- Go: `type board [boardSize][boardSize]int`. -/
abbrev Board := Fin boardSize → Fin boardSize → Int

/-- The Go zero value `board{}`: every cell `0`. -/
def zeroBoard : Board := fun _ _ => 0

/-- One board's part of `markDrawnNumber`'s loop body: every cell equal to
`number` is set to `-1`, all other cells are kept. -/
def markBoard (b : Board) (number : Int) : Board :=
  fun y x => if b y x = number then -1 else b y x

/-- Go `markDrawnNumber` (lines 93–106): mark `number` on every board. -/
def markDrawnNumber (boards : List Board) (number : Int) : List Board :=
  boards.map (fun b => markBoard b number)

/-- Sum of row `y` of a board (the inner loop of the row check, unrolled
over the fixed `boardSize = 5`). -/
def rowSum (b : Board) (y : Fin boardSize) : Int :=
  b y 0 + b y 1 + b y 2 + b y 3 + b y 4

/-- Sum of column `x` of a board (the inner loop of the column check,
unrolled over the fixed `boardSize = 5`). -/
def colSum (b : Board) (x : Fin boardSize) : Int :=
  b 0 x + b 1 x + b 2 x + b 3 x + b 4 x

/-- The per-board win test shared by `findWinningBoards` and
`findNonWinningBoards`: some row sum or some column sum equals
`-boardSize` (rows checked before columns; only the boolean matters). -/
def isWinningBoard (b : Board) : Bool :=
  (rowSum b 0 == -5) || (rowSum b 1 == -5) || (rowSum b 2 == -5) ||
  (rowSum b 3 == -5) || (rowSum b 4 == -5) ||
  (colSum b 0 == -5) || (colSum b 1 == -5) || (colSum b 2 == -5) ||
  (colSum b 3 == -5) || (colSum b 4 == -5)

/-- Go `findWinningBoards` (lines 108–142): append exactly the boards that
pass the win test, preserving order. -/
def findWinningBoards (boards : List Board) : List Board :=
  boards.filter isWinningBoard

/-- Go `findNonWinningBoards` (lines 188–224): append exactly the boards
that fail the win test, preserving order. -/
def findNonWinningBoards (boards : List Board) : List Board :=
  boards.filter (fun b => ! isWinningBoard b)

/-- One cell's contribution in `calcBoardScore`: `if val > 0 { score += val }`. -/
def cellScore (v : Int) : Int := if 0 < v then v else 0

/-- One row's contribution in `calcBoardScore` (inner loop unrolled). -/
def rowScore (b : Board) (y : Fin boardSize) : Int :=
  cellScore (b y 0) + cellScore (b y 1) + cellScore (b y 2) +
  cellScore (b y 3) + cellScore (b y 4)

/-- Go `calcBoardScore` (lines 144–155): sum of the strictly positive cells. -/
def calcBoardScore (b : Board) : Int :=
  rowScore b 0 + rowScore b 1 + rowScore b 2 + rowScore b 3 + rowScore b 4

/-- The loop of Go `findHighestScoringBoard`, carrying `bestScore` and
`bestBoard`; the board is overwritten only on strict score improvement. -/
def findHighestScoringBoardAux (bestScore : Int) (bestBoard : Board) :
    List Board → Board
  | [] => bestBoard
  | b :: rest =>
    if calcBoardScore b > bestScore then
      findHighestScoringBoardAux (calcBoardScore b) b rest
    else
      findHighestScoringBoardAux bestScore bestBoard rest

/-- Go `findHighestScoringBoard` (lines 157–168): `bestScore` starts at `0`
and `bestBoard` at the zero value of the `board` type. -/
def findHighestScoringBoard (boards : List Board) : Board :=
  findHighestScoringBoardAux 0 zeroBoard boards

/-- Go `playBingoBestChoice` (lines 170–186), with the in-place mutation of
the caller's slice made explicit: the second component is the state of the
boards when the loop stops (all draws marked so far). -/
def playBingoBestChoiceS : List Board → List Int → Int × List Board
  | boards, [] => (0, boards)
  | boards, n :: rest =>
    match findWinningBoards (markDrawnNumber boards n) with
    | [] => playBingoBestChoiceS (markDrawnNumber boards n) rest
    | w :: ws =>
      (calcBoardScore (findHighestScoringBoard (w :: ws)) * n,
       markDrawnNumber boards n)

/-- The score returned by Go `playBingoBestChoice`. -/
def playBingoBestChoice (boards : List Board) (numbers : List Int) : Int :=
  (playBingoBestChoiceS boards numbers).1

/-- Go `playBingoWorstChoice` (lines 226–246).  While more than 2 boards
remain, keep only the non-winning ones; otherwise compute the winning
boards once and index `[0]` unconditionally — `none` models the
out-of-range panic when that list is empty.  If the draws run out the named
return `score` is still `0`. -/
def playBingoWorstChoice : List Board → List Int → Option Int
  | _, [] => some 0
  | boards, n :: rest =>
    if (markDrawnNumber boards n).length > 2 then
      playBingoWorstChoice (findNonWinningBoards (markDrawnNumber boards n)) rest
    else
      match findWinningBoards (markDrawnNumber boards n) with
      | [] => none
      | w :: _ => some (calcBoardScore w * n)

/-- The board states `main` hands to `playBingoWorstChoice`: the same slice
that `playBingoBestChoice` marked in place (no re-parse happens between the
two calls). -/
def part2InputBoards (boards : List Board) (numbers : List Int) : List Board :=
  (playBingoBestChoiceS boards numbers).2

/-- Go `main` (lines 248–270), engine part: part 1 on the parsed boards,
part 2 on the boards as left behind by part 1. -/
def mainResults (boards : List Board) (numbers : List Int) : Int × Option Int :=
  (playBingoBestChoice boards numbers,
   playBingoWorstChoice (part2InputBoards boards numbers) numbers)

/-- Marking a whole draw sequence on a list of boards, in order. -/
def markAll (boards : List Board) (ds : List Int) : List Board :=
  ds.foldl markDrawnNumber boards

/-- Marking a whole draw sequence on a single board, in order. -/
def markList (b : Board) (ds : List Int) : Board :=
  ds.foldl markBoard b

/-- Spec-side comparator for the scorer: the value of a cell that is still
in its original (unmarked, i.e. not the `-1` sentinel) state; marked cells
contribute zero. -/
def specCellUnmarked (v : Int) : Int := if v = -1 then 0 else v

/-- Spec-side comparator: sum of all cell values still unmarked. -/
def specUnmarkedSum (b : Board) : Int :=
  (specCellUnmarked (b 0 0) + specCellUnmarked (b 0 1) + specCellUnmarked (b 0 2) +
     specCellUnmarked (b 0 3) + specCellUnmarked (b 0 4)) +
  (specCellUnmarked (b 1 0) + specCellUnmarked (b 1 1) + specCellUnmarked (b 1 2) +
     specCellUnmarked (b 1 3) + specCellUnmarked (b 1 4)) +
  (specCellUnmarked (b 2 0) + specCellUnmarked (b 2 1) + specCellUnmarked (b 2 2) +
     specCellUnmarked (b 2 3) + specCellUnmarked (b 2 4)) +
  (specCellUnmarked (b 3 0) + specCellUnmarked (b 3 1) + specCellUnmarked (b 3 2) +
     specCellUnmarked (b 3 3) + specCellUnmarked (b 3 4)) +
  (specCellUnmarked (b 4 0) + specCellUnmarked (b 4 1) + specCellUnmarked (b 4 2) +
     specCellUnmarked (b 4 3) + specCellUnmarked (b 4 4))

/-- Spec-side comparator: sum of all cell values of a board. -/
def specTotalSum (b : Board) : Int :=
  (b 0 0 + b 0 1 + b 0 2 + b 0 3 + b 0 4) +
  (b 1 0 + b 1 1 + b 1 2 + b 1 3 + b 1 4) +
  (b 2 0 + b 2 1 + b 2 2 + b 2 3 + b 2 4) +
  (b 3 0 + b 3 1 + b 3 2 + b 3 3 + b 3 4) +
  (b 4 0 + b 4 1 + b 4 2 + b 4 3 + b 4 4)

/-- Every cell of the board is either the sentinel `-1` or non-negative
(the data-model invariant: unmarked cells are non-negative). -/
def boardOk (b : Board) : Prop :=
  ∀ y x, b y x = -1 ∨ 0 ≤ b y x

instance (b : Board) : Decidable (boardOk b) := by
  unfold boardOk; infer_instance

/-! ## Concrete boards used as witnesses and counterexamples -/

/-- A board marked exactly on its main diagonal, all other cells `7`. -/
def diagBoard : Board := fun y x => if y = x then -1 else 7

/-- Every cell `7`. -/
def sevensBoard : Board := fun _ _ => 7

/-- Every cell `1`. -/
def onesBoard : Board := fun _ _ => 1

/-- Every cell `3`. -/
def threesBoard : Board := fun _ _ => 3

/-- Row 0 holds `1 2 3 4 5`, every other cell `0`. -/
def rowBoard : Board := fun y x => if y = 0 then (x : Int) + 1 else 0

/-- Row 0 holds `5 5 5 5 9`, every other cell `7`: it completes row 0 after
the two draws `9, 5`, but not after `9` alone. -/
def lateBoard : Board := fun y x =>
  if y = 0 then (if x = 4 then 9 else 5) else 7

/-- Row 0 holds `-10 5 0 0 0` (sum `-5`), every other cell `1`: its row sum
fakes a win that marking the draw `5` destroys. -/
def fakeWinBoard : Board := fun y x =>
  if y = 0 then (if x = 0 then -10 else if x = 1 then 5 else 0) else 1

/-- Row 0 fully marked (`-1`), every other cell `1`. -/
def wonBoard : Board := fun y _ => if y = 0 then -1 else 1

/-! ## Basic lemmas on the win predicate -/

lemma forall_fin5 (p : Fin boardSize → Prop) :
    (∀ i, p i) ↔ p 0 ∧ p 1 ∧ p 2 ∧ p 3 ∧ p 4 := by
  constructor
  · intro h; exact ⟨h 0, h 1, h 2, h 3, h 4⟩
  · rintro ⟨h0, h1, h2, h3, h4⟩ i; fin_cases i <;> assumption

lemma exists_fin5 (p : Fin boardSize → Prop) :
    (∃ i, p i) ↔ p 0 ∨ p 1 ∨ p 2 ∨ p 3 ∨ p 4 := by
  constructor
  · rintro ⟨i, hi⟩; fin_cases i
    · exact Or.inl hi
    · exact Or.inr (Or.inl hi)
    · exact Or.inr (Or.inr (Or.inl hi))
    · exact Or.inr (Or.inr (Or.inr (Or.inl hi)))
    · exact Or.inr (Or.inr (Or.inr (Or.inr hi)))
  · rintro (h | h | h | h | h) <;> exact ⟨_, h⟩

lemma boardOk_bounds {b : Board} (hok : boardOk b) : ∀ y x, -1 ≤ b y x := by
  intro y x; rcases hok y x with h | h <;> omega

/-- For a board whose unmarked cells are non-negative, a row sums to
`-boardSize` exactly when all its cells carry the sentinel. -/
lemma rowSum_eq_iff {b : Board} (hok : boardOk b) (y : Fin boardSize) :
    rowSum b y = -5 ↔ ∀ x, b y x = -1 := by
  have h0 := boardOk_bounds hok y 0
  have h1 := boardOk_bounds hok y 1
  have h2 := boardOk_bounds hok y 2
  have h3 := boardOk_bounds hok y 3
  have h4 := boardOk_bounds hok y 4
  rw [forall_fin5 (fun x => b y x = -1)]
  unfold rowSum
  constructor
  · intro h; omega
  · intro h; omega

/-- Column version of `rowSum_eq_iff`. -/
lemma colSum_eq_iff {b : Board} (hok : boardOk b) (x : Fin boardSize) :
    colSum b x = -5 ↔ ∀ y, b y x = -1 := by
  have h0 := boardOk_bounds hok 0 x
  have h1 := boardOk_bounds hok 1 x
  have h2 := boardOk_bounds hok 2 x
  have h3 := boardOk_bounds hok 3 x
  have h4 := boardOk_bounds hok 4 x
  rw [forall_fin5 (fun y => b y x = -1)]
  unfold colSum
  constructor
  · intro h; omega
  · intro h; omega

lemma isWinningBoard_eq_true_iff (b : Board) :
    isWinningBoard b = true ↔
      (∃ y, rowSum b y = -5) ∨ (∃ x, colSum b x = -5) := by
  rw [exists_fin5 (fun y => rowSum b y = -5),
    exists_fin5 (fun x => colSum b x = -5)]
  simp only [isWinningBoard, Bool.or_eq_true, beq_iff_eq]
  tauto

/-- For a board whose unmarked cells are non-negative, the win test of the
source holds exactly when some row or some column is fully marked. -/
lemma isWinningBoard_iff {b : Board} (hok : boardOk b) :
    isWinningBoard b = true ↔
      (∃ y, ∀ x, b y x = -1) ∨ (∃ x, ∀ y, b y x = -1) := by
  rw [isWinningBoard_eq_true_iff]
  constructor
  · rintro (⟨y, hy⟩ | ⟨x, hx⟩)
    · exact Or.inl ⟨y, (rowSum_eq_iff hok y).mp hy⟩
    · exact Or.inr ⟨x, (colSum_eq_iff hok x).mp hx⟩
  · rintro (⟨y, hy⟩ | ⟨x, hx⟩)
    · exact Or.inl ⟨y, (rowSum_eq_iff hok y).mpr hy⟩
    · exact Or.inr ⟨x, (colSum_eq_iff hok x).mpr hx⟩

/-- C3: for a board whose unmarked cells are non-negative, membership in
`findWinningBoards` of a collection containing it holds iff some row or
some column of the board is fully marked with the sentinel. -/
theorem bingo_c3_win_iff_row_or_col (b : Board) (L : List Board)
    (hok : boardOk b) (hmem : b ∈ L) :
    b ∈ findWinningBoards L ↔
      (∃ y, ∀ x, b y x = -1) ∨ (∃ x, ∀ y, b y x = -1) := by
  rw [findWinningBoards, List.mem_filter]
  constructor
  · rintro ⟨-, hw⟩; exact (isWinningBoard_iff hok).mp hw
  · intro h; exact ⟨hmem, (isWinningBoard_iff hok).mpr h⟩

/-- C3 witness: a board with only its full diagonal marked is contained in
the collection, satisfies the data-model invariant, yet is not winning. -/
theorem bingo_c3_witness : diagBoard ∉ findWinningBoards [diagBoard] := by
  intro hmem
  have h := (bingo_c3_win_iff_row_or_col diagBoard [diagBoard]
    (by decide) (List.mem_singleton.mpr rfl)).mp hmem
  exact absurd h (by decide)

/-! ## Scorer (C6) -/

lemma cellScore_eq_spec {v : Int} (h : v = -1 ∨ 0 ≤ v) :
    cellScore v = specCellUnmarked v := by
  unfold cellScore specCellUnmarked
  rcases h with h | h
  · subst h; norm_num
  · split_ifs <;> omega

/-- C6: for a board whose unmarked cells are non-negative, `calcBoardScore`
equals the sum of the cells still unmarked (marked cells contribute zero);
a board with no marks scores the sum of all its cells, and an all-marked
board scores `0`. -/
theorem bingo_c6_score (b : Board) (hok : boardOk b) :
    calcBoardScore b = specUnmarkedSum b ∧
    ((∀ y x, b y x ≠ -1) → calcBoardScore b = specTotalSum b) ∧
    ((∀ y x, b y x = -1) → calcBoardScore b = 0) := by
  refine ⟨?_, ?_, ?_⟩
  · have h : ∀ y x, cellScore (b y x) = specCellUnmarked (b y x) :=
      fun y x => cellScore_eq_spec (hok y x)
    simp only [calcBoardScore, rowScore, specUnmarkedSum, h]
  · intro hnm
    have h : ∀ y x, cellScore (b y x) = b y x := by
      intro y x
      have h0 : 0 ≤ b y x := (hok y x).resolve_left (hnm y x)
      unfold cellScore; split_ifs <;> omega
    simp only [calcBoardScore, rowScore, specTotalSum, h]
  · intro hm
    have h : ∀ y x, cellScore (b y x) = 0 := by
      intro y x; rw [hm y x]; norm_num [cellScore]
    simp only [calcBoardScore, rowScore, h]
    norm_num

/-- C6 witness at a concrete board (row 0 marked, the rest `1`s). -/
theorem bingo_c6_witness :
    calcBoardScore wonBoard = specUnmarkedSum wonBoard ∧
    ((∀ y x, wonBoard y x ≠ -1) → calcBoardScore wonBoard = specTotalSum wonBoard) ∧
    ((∀ y x, wonBoard y x = -1) → calcBoardScore wonBoard = 0) :=
  bingo_c6_score wonBoard (by decide)

/-! ## Marker (C7) -/

lemma markDrawnNumber_getD :
    ∀ (boards : List Board) (n : Int) (i : Nat), i < boards.length →
      (markDrawnNumber boards n).getD i zeroBoard =
        markBoard (boards.getD i zeroBoard) n
  | [], _, i, hi => absurd hi (by simp)
  | b :: bs, n, 0, _ => rfl
  | b :: bs, n, i + 1, hi =>
      markDrawnNumber_getD bs n i (by simpa using hi)

/-- C7: `markDrawnNumber` keeps the shape of the collection; in every board
each cell equal to the drawn number becomes the sentinel and every other
cell is unchanged; a board not containing the number is unchanged. -/
theorem bingo_c7_mark (boards : List Board) (n : Int)
    (_hb : ∀ b ∈ boards, ∀ y x, 0 ≤ b y x) (_hn : 0 ≤ n) :
    (markDrawnNumber boards n).length = boards.length ∧
    (∀ i, i < boards.length → ∀ y x,
      (markDrawnNumber boards n).getD i zeroBoard y x =
        if boards.getD i zeroBoard y x = n then -1
        else boards.getD i zeroBoard y x) ∧
    (∀ i, i < boards.length → (∀ y x, boards.getD i zeroBoard y x ≠ n) →
      (markDrawnNumber boards n).getD i zeroBoard = boards.getD i zeroBoard) := by
  refine ⟨List.length_map boards _, ?_, ?_⟩
  · intro i hi y x
    rw [markDrawnNumber_getD boards n i hi]
    rfl
  · intro i hi habs
    rw [markDrawnNumber_getD boards n i hi]
    funext y x
    unfold markBoard
    rw [if_neg (habs y x)]

/-- C7 witness: marking `3` on a collection of concrete non-negative
boards. -/
theorem bingo_c7_witness :
    (markDrawnNumber [threesBoard, sevensBoard] 3).length = 2 ∧
    (∀ i, i < ([threesBoard, sevensBoard] : List Board).length → ∀ y x,
      (markDrawnNumber [threesBoard, sevensBoard] 3).getD i zeroBoard y x =
        if ([threesBoard, sevensBoard] : List Board).getD i zeroBoard y x = 3 then -1
        else ([threesBoard, sevensBoard] : List Board).getD i zeroBoard y x) ∧
    (∀ i, i < ([threesBoard, sevensBoard] : List Board).length →
      (∀ y x, ([threesBoard, sevensBoard] : List Board).getD i zeroBoard y x ≠ 3) →
      (markDrawnNumber [threesBoard, sevensBoard] 3).getD i zeroBoard =
        ([threesBoard, sevensBoard] : List Board).getD i zeroBoard) :=
  bingo_c7_mark [threesBoard, sevensBoard] 3 (by decide) (by norm_num)

/-! ## Monotonicity of winning (C5) -/

lemma markBoard_boardOk {b : Board} (hok : boardOk b) (n : Int) :
    boardOk (markBoard b n) := by
  intro y x
  unfold markBoard
  split
  · left; rfl
  · exact hok y x

lemma markBoard_keeps_sentinel {b : Board} {y x : Fin boardSize}
    (h : b y x = -1) (n : Int) : markBoard b n y x = -1 := by
  unfold markBoard
  split
  · rfl
  · exact h

lemma isWinning_markBoard {b : Board} (hok : boardOk b) (n : Int)
    (hw : isWinningBoard b = true) : isWinningBoard (markBoard b n) = true := by
  rw [isWinningBoard_iff (markBoard_boardOk hok n)]
  rcases (isWinningBoard_iff hok).mp hw with ⟨y, hy⟩ | ⟨x, hx⟩
  · exact Or.inl ⟨y, fun x => markBoard_keeps_sentinel (hy x) n⟩
  · exact Or.inr ⟨x, fun y => markBoard_keeps_sentinel (hx y) n⟩

lemma markList_cons (b : Board) (n : Int) (ds : List Int) :
    markList b (n :: ds) = markList (markBoard b n) ds := rfl

lemma markList_append (b : Board) (p q : List Int) :
    markList b (p ++ q) = markList (markList b p) q := by
  simp [markList, List.foldl_append]

lemma markList_boardOk {b : Board} (hok : boardOk b) :
    ∀ ds : List Int, boardOk (markList b ds) := by
  intro ds
  induction ds generalizing b with
  | nil => exact hok
  | cons n ds ih => exact ih (markBoard_boardOk hok n)

lemma isWinning_markList {b : Board} (hok : boardOk b)
    (hw : isWinningBoard b = true) :
    ∀ ds : List Int, isWinningBoard (markList b ds) = true := by
  intro ds
  induction ds generalizing b with
  | nil => exact hw
  | cons n ds ih =>
      exact ih (markBoard_boardOk hok n) (isWinning_markBoard hok n hw)

/-- C5 (amended): for a board satisfying the data-model invariant (every
cell is the sentinel or non-negative) and non-negative draws, once the win
test holds after `k` draws it holds after any `l ≥ k` draws. -/
theorem bingo_c5_amended (b : Board) (ds : List Int) (hok : boardOk b)
    (_hds : ∀ n ∈ ds, 0 ≤ n) (k l : Nat) (hkl : k ≤ l)
    (hw : isWinningBoard (markList b (ds.take k)) = true) :
    isWinningBoard (markList b (ds.take l)) = true := by
  have hl : k + (l - k) = l := by omega
  have hsplit : ds.take (k + (l - k)) = ds.take k ++ (ds.drop k).take (l - k) := by
    rw [List.take_add]
  rw [hl] at hsplit
  rw [hsplit, markList_append]
  exact isWinning_markList (markList_boardOk hok _) hw _

/-- C5 witness: a board already winning stays winning after one more
non-negative draw. -/
theorem bingo_c5_witness :
    isWinningBoard (markList wonBoard (([1] : List Int).take 1)) = true :=
  bingo_c5_amended wonBoard [1] (by decide) (by decide) 0 1 (by omega) (by decide)

/-- C5 counterexample to the unrestricted claim: a board with a negative
cell (`-10`) has row sum `-5` and passes the win test after the first
(non-negative) draw, but fails it after the second — so with arbitrary
integer cells winning is not monotone. -/
theorem bingo_c5_counterexample :
    (∀ n ∈ ([9, 5] : List Int), 0 ≤ n) ∧
    isWinningBoard (markList fakeWinBoard (([9, 5] : List Int).take 1)) = true ∧
    isWinningBoard (markList fakeWinBoard (([9, 5] : List Int).take 2)) = false := by
  decide

/-! ## Highest-scoring-board selection (C10, feeding C4) -/

lemma cellScore_nonneg (v : Int) : 0 ≤ cellScore v := by
  unfold cellScore; split <;> omega

lemma rowScore_nonneg (b : Board) (y : Fin boardSize) : 0 ≤ rowScore b y := by
  have h0 := cellScore_nonneg (b y 0)
  have h1 := cellScore_nonneg (b y 1)
  have h2 := cellScore_nonneg (b y 2)
  have h3 := cellScore_nonneg (b y 3)
  have h4 := cellScore_nonneg (b y 4)
  unfold rowScore; omega

lemma calcBoardScore_nonneg (b : Board) : 0 ≤ calcBoardScore b := by
  have h0 := rowScore_nonneg b 0
  have h1 := rowScore_nonneg b 1
  have h2 := rowScore_nonneg b 2
  have h3 := rowScore_nonneg b 3
  have h4 := rowScore_nonneg b 4
  unfold calcBoardScore; omega

/-- Invariant of the `findHighestScoringBoard` loop: starting from a best
board realizing a non-negative best score, the loop either never improves
(and keeps the start board, every score being bounded by the start score),
or returns the first list element realizing the maximum score. -/
lemma findHighestScoringBoardAux_spec :
    ∀ (L : List Board) (s0 : Int) (b0 : Board),
      calcBoardScore b0 = s0 → 0 ≤ s0 →
      (findHighestScoringBoardAux s0 b0 L = b0 ∧
        ∀ b ∈ L, calcBoardScore b ≤ s0) ∨
      (∃ pre r post, L = pre ++ r :: post ∧
        findHighestScoringBoardAux s0 b0 L = r ∧
        s0 < calcBoardScore r ∧
        (∀ b ∈ pre, calcBoardScore b < calcBoardScore r) ∧
        (∀ b ∈ post, calcBoardScore b ≤ calcBoardScore r)) := by
  intro L
  induction L with
  | nil =>
      intro s0 b0 hb0 hs0
      exact Or.inl ⟨rfl, by simp⟩
  | cons b L ih =>
      intro s0 b0 hb0 hs0
      by_cases h : calcBoardScore b > s0
      · rcases ih (calcBoardScore b) b rfl (calcBoardScore_nonneg b) with
          ⟨heq, hall⟩ | ⟨pre, r, post, hL, heq, hlt, hpre, hpost⟩
        · refine Or.inr ⟨[], b, L, rfl, ?_, h, by simp, hall⟩
          simp only [findHighestScoringBoardAux, if_pos h]
          exact heq
        · refine Or.inr ⟨b :: pre, r, post, by simp [hL], ?_, ?_, ?_, hpost⟩
          · simp only [findHighestScoringBoardAux, if_pos h]
            exact heq
          · exact lt_trans h hlt
          · intro c hc
            rcases List.mem_cons.mp hc with hc | hc
            · rw [hc]; exact hlt
            · exact hpre c hc
      · push_neg at h
        rcases ih s0 b0 hb0 hs0 with
          ⟨heq, hall⟩ | ⟨pre, r, post, hL, heq, hlt, hpre, hpost⟩
        · refine Or.inl ⟨?_, ?_⟩
          · simp only [findHighestScoringBoardAux, if_neg (not_lt.mpr h)]
            exact heq
          · intro c hc
            rcases List.mem_cons.mp hc with hc | hc
            · rw [hc]; exact h
            · exact hall c hc
        · refine Or.inr ⟨b :: pre, r, post, by simp [hL], ?_, hlt, ?_, hpost⟩
          · simp only [findHighestScoringBoardAux, if_neg (not_lt.mpr h)]
            exact heq
          · intro c hc
            rcases List.mem_cons.mp hc with hc | hc
            · rw [hc]; exact lt_of_le_of_lt h hlt
            · exact hpre c hc

lemma findHighest_all_zero {L : List Board}
    (h : ∀ b ∈ L, calcBoardScore b = 0) :
    findHighestScoringBoard L = zeroBoard := by
  rcases findHighestScoringBoardAux_spec L 0 zeroBoard (by decide) le_rfl with
    ⟨heq, -⟩ | ⟨pre, r, post, hL, heq, hlt, -, -⟩
  · exact heq
  · exfalso
    have hr : r ∈ L := by rw [hL]; exact List.mem_append_right _ (List.mem_cons_self r post)
    rw [h r hr] at hlt
    exact absurd hlt (by omega)

lemma findHighest_spec (L : List Board) :
    (findHighestScoringBoard L = zeroBoard ∧ ∀ b ∈ L, calcBoardScore b ≤ 0) ∨
    (∃ pre post, L = pre ++ findHighestScoringBoard L :: post ∧
      0 < calcBoardScore (findHighestScoringBoard L) ∧
      (∀ b ∈ pre, calcBoardScore b < calcBoardScore (findHighestScoringBoard L)) ∧
      (∀ b ∈ post, calcBoardScore b ≤ calcBoardScore (findHighestScoringBoard L))) := by
  rcases findHighestScoringBoardAux_spec L 0 zeroBoard (by decide) le_rfl with
    ⟨heq, hall⟩ | ⟨pre, r, post, hL, heq, hlt, hpre, hpost⟩
  · exact Or.inl ⟨heq, hall⟩
  · have hfb : findHighestScoringBoard L = r := heq
    refine Or.inr ⟨pre, post, ?_, ?_, ?_, ?_⟩ <;> rw [hfb]
    · exact hL
    · exact hlt
    · exact hpre
    · exact hpost

lemma findHighest_dominates (L : List Board) :
    ∀ b ∈ L, calcBoardScore b ≤ calcBoardScore (findHighestScoringBoard L) := by
  rcases findHighest_spec L with
    ⟨heq, hall⟩ | ⟨pre, post, hL, hpos, hpre, hpost⟩
  · intro b hb
    rw [heq]
    exact le_trans (hall b hb) (by decide)
  · intro b hb
    rw [hL] at hb
    rcases List.mem_append.mp hb with hb | hb
    · exact le_of_lt (hpre b hb)
    · rcases List.mem_cons.mp hb with hb | hb
      · rw [hb]
      · exact hpost b hb

/-- C10 (amended): on a collection in which every board scores `0`,
`findHighestScoringBoard` returns the all-zero board (which coincides with
a member only if the collection contains the all-zero board); conversely, a
returned board different from the all-zero board is a member of the
collection and some board then has strictly positive score. -/
theorem bingo_c10_amended (boards : List Board) (_hne : boards ≠ []) :
    ((∀ b ∈ boards, calcBoardScore b = 0) →
      findHighestScoringBoard boards = zeroBoard) ∧
    (findHighestScoringBoard boards ≠ zeroBoard →
      findHighestScoringBoard boards ∈ boards ∧
      ∃ b ∈ boards, 0 < calcBoardScore b) := by
  constructor
  · exact findHighest_all_zero
  · intro hne0
    rcases findHighest_spec boards with
      ⟨heq, -⟩ | ⟨pre, post, hL, hpos, -, -⟩
    · exact absurd heq hne0
    · have hmem : findHighestScoringBoard boards ∈
          pre ++ findHighestScoringBoard boards :: post :=
        List.mem_append_right _ (List.mem_cons_self _ post)
      rw [← hL] at hmem
      exact ⟨hmem, findHighestScoringBoard boards, hmem, hpos⟩

/-- C10 witness at a non-empty concrete collection. -/
theorem bingo_c10_witness :
    ((∀ b ∈ [onesBoard], calcBoardScore b = 0) →
      findHighestScoringBoard [onesBoard] = zeroBoard) ∧
    (findHighestScoringBoard [onesBoard] ≠ zeroBoard →
      findHighestScoringBoard [onesBoard] ∈ [onesBoard] ∧
      ∃ b ∈ [onesBoard], 0 < calcBoardScore b) :=
  bingo_c10_amended [onesBoard] (List.cons_ne_nil onesBoard [])

/-- C10 counterexample to the claim as stated: on `[zeroBoard]` every board
scores `0`, yet the returned board *is* a member of the list. -/
theorem bingo_c10_counterexample :
    findHighestScoringBoard [zeroBoard] = zeroBoard ∧
    zeroBoard ∈ [zeroBoard] ∧
    (∀ b ∈ [zeroBoard], calcBoardScore b = 0) := by decide

/-! ## First-winner strategy (C4, C8) -/

/-- The winning subset as it stands after the draws up to index `k` have
been marked (the subset `playBingoBestChoice` inspects at draw `k`). -/
def winnersAt (boards : List Board) (numbers : List Int) (k : Nat) : List Board :=
  findWinningBoards (markAll boards (numbers.take (k + 1)))

lemma markAll_cons (boards : List Board) (n : Int) (ds : List Int) :
    markAll boards (n :: ds) = markAll (markDrawnNumber boards n) ds := rfl

lemma winnersAt_cons (boards : List Board) (n : Int) (rest : List Int) (k : Nat) :
    winnersAt boards (n :: rest) (k + 1) = winnersAt (markDrawnNumber boards n) rest k := by
  simp only [winnersAt, List.take_succ_cons, markAll_cons]

lemma winnersAt_zero (boards : List Board) (n : Int) (rest : List Int) :
    winnersAt boards (n :: rest) 0 = findWinningBoards (markDrawnNumber boards n) := rfl

/-- Unrolling `playBingoBestChoice` to the first draw whose winning subset
is non-empty: the returned score is the selected board's score times the
number drawn there. -/
lemma playBingoBestChoice_unroll :
    ∀ (numbers : List Int) (boards : List Board) (k : Nat) (hk : k < numbers.length),
      (∀ j, j < k → winnersAt boards numbers j = []) →
      winnersAt boards numbers k ≠ [] →
      playBingoBestChoice boards numbers =
        calcBoardScore (findHighestScoringBoard (winnersAt boards numbers k)) *
          numbers.get ⟨k, hk⟩ := by
  intro numbers
  induction numbers with
  | nil =>
      intro boards k hk
      exact absurd hk (by simp)
  | cons n rest ih =>
      intro boards k hk hfirst hwin
      cases k with
      | zero =>
          rw [winnersAt_zero] at hwin ⊢
          cases h : findWinningBoards (markDrawnNumber boards n) with
          | nil => exact absurd h hwin
          | cons w ws =>
              simp only [playBingoBestChoice, playBingoBestChoiceS, h, List.get]
      | succ k =>
          have h0 : findWinningBoards (markDrawnNumber boards n) = [] :=
            winnersAt_zero boards n rest ▸ hfirst 0 (Nat.succ_pos k)
          have hstep : playBingoBestChoice boards (n :: rest) =
              playBingoBestChoice (markDrawnNumber boards n) rest := by
            simp only [playBingoBestChoice, playBingoBestChoiceS, h0]
          rw [hstep, winnersAt_cons]
          have hk' : k < rest.length := by simpa using hk
          rw [ih (markDrawnNumber boards n) k hk'
            (fun j hj => by
              rw [← winnersAt_cons]
              exact hfirst (j + 1) (by omega))
            (by rw [← winnersAt_cons]; exact hwin)]
          rfl

/-- C4 (amended): on the first draw `k` whose winning subset is non-empty,
the result is the selected board's score times the number drawn at `k`; the
selected board's score bounds every winner's score; if some winner has
strictly positive score the selected board is the earliest winner attaining
the maximum; if every winner scores `0`, the selected board is the all-zero
board (not in general a winner) and the result is `0`. -/
theorem bingo_c4_amended (boards : List Board) (numbers : List Int) (k : Nat)
    (hk : k < numbers.length)
    (hfirst : ∀ j, j < k → winnersAt boards numbers j = [])
    (hwin : winnersAt boards numbers k ≠ []) :
    playBingoBestChoice boards numbers =
      calcBoardScore (findHighestScoringBoard (winnersAt boards numbers k)) *
        numbers.get ⟨k, hk⟩ ∧
    (∀ b ∈ winnersAt boards numbers k,
      calcBoardScore b ≤
        calcBoardScore (findHighestScoringBoard (winnersAt boards numbers k))) ∧
    ((∃ b ∈ winnersAt boards numbers k, 0 < calcBoardScore b) →
      ∃ pre post, winnersAt boards numbers k =
          pre ++ findHighestScoringBoard (winnersAt boards numbers k) :: post ∧
        ∀ b ∈ pre, calcBoardScore b <
          calcBoardScore (findHighestScoringBoard (winnersAt boards numbers k))) ∧
    ((∀ b ∈ winnersAt boards numbers k, calcBoardScore b = 0) →
      findHighestScoringBoard (winnersAt boards numbers k) = zeroBoard ∧
      playBingoBestChoice boards numbers = 0) := by
  have h1 := playBingoBestChoice_unroll numbers boards k hk hfirst hwin
  refine ⟨h1, findHighest_dominates _, ?_, ?_⟩
  · rintro ⟨b, hb, hbpos⟩
    rcases findHighest_spec (winnersAt boards numbers k) with
      ⟨-, hall⟩ | ⟨pre, post, hL, -, hpre, -⟩
    · exact absurd (hall b hb) (by omega)
    · exact ⟨pre, post, hL, hpre⟩
  · intro hz
    have hzb := findHighest_all_zero hz
    refine ⟨hzb, ?_⟩
    rw [h1, hzb]
    have hz0 : calcBoardScore zeroBoard = 0 := by decide
    rw [hz0, zero_mul]

/-- C4 witness: a single board winning on the first draw. -/
theorem bingo_c4_witness :
    playBingoBestChoice [onesBoard] [1] =
      calcBoardScore (findHighestScoringBoard (winnersAt [onesBoard] [1] 0)) *
        (([1] : List Int).get ⟨0, by decide⟩) :=
  (bingo_c4_amended [onesBoard] [1] 0 (by decide)
    (fun j hj => absurd hj (Nat.not_lt_zero j)) (by decide)).1

/-- C4 counterexample to the claim as stated: on `[rowBoard]` with draws
`1..5`, draw index 4 is the first with a non-empty winning subset, but the
selected board is not a member of that subset (all winners score `0`), so
it is not "the winner with the highest score". -/
theorem bingo_c4_counterexample :
    (∀ j, j < 4 → winnersAt [rowBoard] [1, 2, 3, 4, 5] j = []) ∧
    winnersAt [rowBoard] [1, 2, 3, 4, 5] 4 ≠ [] ∧
    findHighestScoringBoard (winnersAt [rowBoard] [1, 2, 3, 4, 5] 4) ∉
      winnersAt [rowBoard] [1, 2, 3, 4, 5] 4 := by decide

/-- C8: if the winning subset stays empty through the whole draw sequence,
the first-winner strategy returns `0` (the zero value of the named return),
not a distinct error. -/
theorem bingo_c8_no_winner :
    ∀ (numbers : List Int) (boards : List Board),
      (∀ k, k < numbers.length → winnersAt boards numbers k = []) →
      playBingoBestChoice boards numbers = 0 := by
  intro numbers
  induction numbers with
  | nil => intro boards _; rfl
  | cons n rest ih =>
      intro boards h
      have h0 : findWinningBoards (markDrawnNumber boards n) = [] :=
        winnersAt_zero boards n rest ▸ h 0 (by simp)
      have hstep : playBingoBestChoice boards (n :: rest) =
          playBingoBestChoice (markDrawnNumber boards n) rest := by
        simp only [playBingoBestChoice, playBingoBestChoiceS, h0]
      rw [hstep]
      exact ih (markDrawnNumber boards n) (fun k hk => by
        rw [← winnersAt_cons]
        exact h (k + 1) (by simpa using hk))

/-- C8 witness: a board of `7`s never wins on the draw `0`. -/
theorem bingo_c8_witness : playBingoBestChoice [sevensBoard] [0] = 0 :=
  bingo_c8_no_winner [0] [sevensBoard] (by decide)

/-! ## Last-winner strategy (C2, C9) and `main`'s shared state (C1) -/

/-- C2 (amended): once the working set has size at most 2, the very next
draw is terminal: the engine computes the winning subset once and
immediately selects its first board — the remaining draws are ignored.  If
that subset is empty the `boards[0]` access aborts (modelled `none`);
otherwise the result is the first winner's score times that draw. -/
theorem bingo_c2_amended (boards : List Board) (n : Int) (rest : List Int)
    (h2 : boards.length ≤ 2) :
    (findWinningBoards (markDrawnNumber boards n) = [] →
      playBingoWorstChoice boards (n :: rest) = none) ∧
    (∀ w ws, findWinningBoards (markDrawnNumber boards n) = w :: ws →
      playBingoWorstChoice boards (n :: rest) = some (calcBoardScore w * n)) := by
  have hlen : (markDrawnNumber boards n).length = boards.length :=
    List.length_map boards _
  have hng : ¬ (markDrawnNumber boards n).length > 2 := by omega
  constructor
  · intro h
    simp only [playBingoWorstChoice]
    rw [if_neg hng, h]
  · intro w ws h
    simp only [playBingoWorstChoice]
    rw [if_neg hng, h]

/-- C2 witness: with a single board that wins on the first draw, the first
winner's score times the draw is returned and the remaining draws are
ignored. -/
theorem bingo_c2_witness :
    playBingoWorstChoice [onesBoard] [1, 99, 100] =
      some (calcBoardScore (markBoard onesBoard 1) * 1) :=
  (bingo_c2_amended [onesBoard] 1 [99, 100] (by decide)).2
    (markBoard onesBoard 1) [] (by decide)

/-- C2 counterexample to the claim as stated: `lateBoard` completes a row
on the second draw (`findWinningBoards` is non-empty after `9, 5`), so the
claimed behaviour would return that board's score times `5`; the code
instead aborts on the first draw, where the working set already has size
`≤ 2` but nothing has won yet. -/
theorem bingo_c2_counterexample :
    playBingoWorstChoice [lateBoard] [9, 5] = none ∧
    findWinningBoards (markAll [lateBoard] [9, 5]) ≠ [] := by decide

/-- C9 (amended): the `boards[0]` access is *not* always in bounds: for any
single board that does not win on the first draw, the winning subset is
empty when the size-`≤ 2` branch is taken and the access is out of range
(modelled `none`). -/
theorem bingo_c9_amended (b : Board) (n : Int)
    (hw : isWinningBoard (markBoard b n) = false) :
    playBingoWorstChoice [b] [n] = none := by
  have hlen : (markDrawnNumber [b] n).length = 1 := rfl
  have hng : ¬ (markDrawnNumber [b] n).length > 2 := by omega
  have hfw : findWinningBoards (markDrawnNumber [b] n) = [] := by
    unfold findWinningBoards markDrawnNumber
    simp [List.filter_cons, hw]
  simp only [playBingoWorstChoice]
  rw [if_neg hng, hfw]

/-- C9 witness at a concrete non-winning board. -/
theorem bingo_c9_witness : playBingoWorstChoice [sevensBoard] [1] = none :=
  bingo_c9_amended sevensBoard 1 (by decide)

/-- C9 counterexample to the claim as stated: a concrete input of
non-negative boards and draws on which the `boards[0]` access is out of
range. -/
theorem bingo_c9_counterexample :
    (∀ y x, 0 ≤ threesBoard y x) ∧ (0 : Int) ≤ 0 ∧
    playBingoWorstChoice [threesBoard] [0] = none := by decide

/-- C1: the board states `main` hands to `playBingoWorstChoice` are the
boards as mutated in place by `playBingoBestChoice`, not the parsed ones:
with the parsed board of all `3`s and the single draw `3`, part 2 observes
the fully marked board. -/
theorem bingo_c1_contamination :
    part2InputBoards [threesBoard] [3] = [markBoard threesBoard 3] ∧
    part2InputBoards [threesBoard] [3] ≠ [threesBoard] := by decide
